import Mathlib

/-!
Verification of the chain-remapping core of the spyProt repository
(`src/spyprot/fetchChainInfo.py`, mirrored in `src/fetchRcsbChainInfo.py`).

The embedding models Python strings as Lean `String`s operating on their
character lists (`String.data`), which matches Python's character-based
indexing (`line[21]` is the 22nd character).  The file-reading loops are
modelled as functions over the list of text lines of the file; fallible
operations (Python `IndexError` / `TypeError`, which abort the whole call
and propagate to the caller) are modelled with `Option`, `none` meaning the
call raised.

`PdbFile.parsePdbAndTranslateChain` reads its input through Python's
`csv.reader`.  For input lines that contain no line break inside a quoted
field (every line of a PDB file, and every input considered here), the
reader yields exactly one record per text line, whose fields are obtained
by the standard csv field-splitting of that line (delimiter `,`,
quote char `"`, doubled quotes as escapes).  `csvSplitLine` below embeds
that per-line field splitting with the csv reader's state machine.
-/

/-- The one-character string holding `c` (Python's `line[i]`, a `str` of
length 1, and the elements of `list(line)`). -/
def chStr (c : Char) : String := String.mk [c]

/-- Python `s.find(p) == 0`, i.e. `p` is a prefix of `s` (character-wise). -/
def startsWithPy (s p : String) : Bool := p.data.isPrefixOf s.data

/-- Python `s.find(p) >= 0`: `p` occurs as a contiguous substring of `s`. -/
def strContains (s p : String) : Bool :=
  (List.range (s.data.length + 1)).any (fun i => p.data.isPrefixOf (s.data.drop i))

/-- Python `s[:-1]`: all characters of `s` but the last (empty for empty `s`). -/
def strDropLast (s : String) : String := String.mk s.data.dropLast

/-- Python `s.strip()`: remove leading and trailing whitespace. -/
def pyStrip (s : String) : String :=
  String.mk (((s.data.dropWhile Char.isWhitespace).reverse.dropWhile Char.isWhitespace).reverse)

/-- Python `s.rstrip()`: remove trailing whitespace. -/
def pyRstrip (s : String) : String :=
  String.mk ((s.data.reverse.dropWhile Char.isWhitespace).reverse)

/-- Helper for `pySplit`: split a character list into maximal runs of
non-whitespace characters, `acc` holding the current run reversed. -/
def wsTokensAux : List Char → List Char → List (List Char)
  | [], acc => if acc.isEmpty then [] else [acc.reverse]
  | c :: cs, acc =>
    if c.isWhitespace then
      if acc.isEmpty then wsTokensAux cs [] else acc.reverse :: wsTokensAux cs []
    else wsTokensAux cs (c :: acc)

/-- Python `s.split()` (no argument): whitespace-run splitting, no empty
tokens. -/
def pySplit (s : String) : List String := (wsTokensAux s.data []).map String.mk

/-- States of the csv field-splitting state machine (Python `csv.reader`,
default dialect: delimiter `,`, quote char `"`, doubled quotes). -/
inductive CsvState where
  | atFieldStart
  | inField
  | inQuoted
  | quoteInQuoted

/-- One record of the csv state machine over the characters of a line;
`acc` is the current field (reversed is avoided: appended at the end). -/
def csvAux : CsvState → List Char → List Char → List (List Char)
  | .atFieldStart, acc, [] => [acc]
  | .inField, acc, [] => [acc]
  | .inQuoted, acc, [] => [acc]
  | .quoteInQuoted, acc, [] => [acc]
  | .atFieldStart, acc, c :: cs =>
    if c = ',' then acc :: csvAux .atFieldStart [] cs
    else if c = '"' then csvAux .inQuoted acc cs
    else csvAux .inField (acc ++ [c]) cs
  | .inField, acc, c :: cs =>
    if c = ',' then acc :: csvAux .atFieldStart [] cs
    else csvAux .inField (acc ++ [c]) cs
  | .inQuoted, acc, c :: cs =>
    if c = '"' then csvAux .quoteInQuoted acc cs
    else csvAux .inQuoted (acc ++ [c]) cs
  | .quoteInQuoted, acc, c :: cs =>
    if c = '"' then csvAux .inQuoted (acc ++ ['"']) cs
    else if c = ',' then acc :: csvAux .atFieldStart [] cs
    else csvAux .inField (acc ++ [c]) cs

/-- The csv record produced by Python's `csv.reader` for one text line
(a blank line yields the empty record `[]`). -/
def csvSplitLine (s : String) : List String :=
  if s.data.isEmpty then [] else (csvAux .atFieldStart [] s.data).map String.mk

/-- One iteration of the loop of `PdbFile.parsePdbAndTranslateChain`
(fetchChainInfo.py lines 190-204) on the csv record of one input line.
`none`: the iteration raised `IndexError` (`line[0]` on an empty record,
or `newLine[21]` on a record whose first field has fewer than 22
characters).  `some none`: the line was dropped (an ATOM/HETATM record of
a different chain).  `some (some t)`: the text `t` was written.  `chain`
is the requested chain code, `newChain` the legacy code found inside the
bundle member file. -/
def translateLine (chain newChain : String) (s : String) : Option (Option String) :=
  match csvSplitLine s with
  | [] => none
  | f0 :: _ =>
    if startsWithPy f0 "ATOM" || startsWithPy f0 "HETATM" then
      let newLine : List String := f0.data.map chStr
      if h : 21 < newLine.length then
        if newLine.get ⟨21, h⟩ == newChain then
          if 2 < chain.data.length then
            some (some (String.join (((newLine ++ chain.data.map chStr).set 21 "%")) ++ "\n"))
          else if 1 < chain.data.length then
            some (some (String.join ((newLine.set 20 (chStr (chain.data.getD 0 ' '))).set 21
              (chStr (chain.data.getD 1 ' '))) ++ "\n"))
          else
            some (some (String.join (newLine.set 21 chain) ++ "\n"))
        else some none
      else none
    else some (some (f0 ++ "\n"))

/-- `PdbFile.parsePdbAndTranslateChain` over the list of text lines of the
input file: the list of texts written to the output file, `none` if the
call raised. -/
def parsePdbAndTranslateChain (lines : List String) (chain newChain : String) :
    Option (List String) :=
  match lines with
  | [] => some []
  | l :: rest =>
    match translateLine chain newChain l with
    | none => none
    | some o => (parsePdbAndTranslateChain rest chain newChain).map (fun out => o.toList ++ out)

/-- Python dicts restricted to what the parser uses: string-keyed
association lists where insertion prepends, so that lookup of the first
matching pair realizes "later assignment wins". -/
abbrev Dict : Type := List (String × String)

/-- `d[k] = v` (Python dict assignment). -/
def dinsert (k v : String) (d : Dict) : Dict := (k, v) :: d

/-- `d.get(k)` (Python `dict.get`, `None` when absent). -/
def dget (k : String) (d : Dict) : Option String :=
  (List.find? (fun p => p.1 == k) d).map (fun p => p.2)

/-- The stripped form of a line, as the parser computes it
(`line.strip().rstrip()`). -/
def stripLine (l : String) : String := pyRstrip (pyStrip l)

/-- The `while line:` loop of `PdbFile.parsePdbBundleChainIdFile`
(fetchChainInfo.py lines 167-181) over the remaining lines of the file,
with the current values of `actualFile`, `mapFile` and `mapChain`.
`none`: the loop raised `IndexError` (`mapping[1]` on a data line with
fewer than two whitespace-separated tokens).  The `files` list and the
`cnt` counter of the source are dead state and are not modelled. -/
def parseBundleLoop : List String → String → Dict → Dict → Option (Dict × Dict)
  | [], _, mapFile, mapChain => some (mapFile, mapChain)
  | l :: rest, actualFile, mapFile, mapChain =>
    let line := stripLine l
    if strContains line "pdb-bundle" then
      parseBundleLoop rest (strDropLast line) mapFile mapChain
    else if actualFile != "" && line != "" then
      match pySplit line with
      | t0 :: t1 :: _ =>
        parseBundleLoop rest actualFile
          (dinsert (pyStrip t1) actualFile mapFile)
          (dinsert (pyStrip t1) (pyStrip t0) mapChain)
      | _ => none
    else parseBundleLoop rest actualFile mapFile mapChain

/-- `PdbFile.parsePdbBundleChainIdFile` over the list of text lines of the
mapping file: the `(mapFile, mapChain)` pair, or `none` if the call
raised. -/
def parsePdbBundleChainIdFile (lines : List String) : Option (Dict × Dict) :=
  parseBundleLoop lines "" [] []

/-- The action the bundle-fallback branch of `PdbFile.download` takes
after parsing the mapping file. -/
inductive BundleAction where
  | translate (memberPath chain : String) (newChain : Option String)
  | moveAndFilter (memberPath : String)
deriving DecidableEq

/-- The pure decision logic of the bundle-fallback branch of
`PdbFile.download` (fetchChainInfo.py lines 140-147), given the parsed
mapping tables.  Python evaluates `self.dir + '/' + mapFile.get(self.chain)`
before branching; when the requested chain is absent from `mapFile` that
concatenation raises `TypeError` (str + None), modelled as `none`.  The
comparison `newChain != self.chain` is between an optional value and a
string, false only when the lookup succeeded with exactly `chain`. -/
def bundleDispatch (dir chain : String) (mapFile mapChain : Dict) : Option BundleAction :=
  let newChain := dget chain mapChain
  match dget chain mapFile with
  | none => none
  | some f =>
    if newChain != some chain then some (.translate (dir ++ "/" ++ f) chain newChain)
    else some (.moveAndFilter (dir ++ "/" ++ f))

/-- A block of a bundle chain-ID mapping file, as raw text lines: the
header line naming the member file, and the data lines that follow it up
to the next header. -/
structure BundleBlock where
  header : String
  datas : List String

/-- The member-file name a block's header denotes: the stripped header
line with its final character removed (`actualFile = line[:-1]`). -/
def memberOf (b : BundleBlock) : String := strDropLast (stripLine b.header)

/-- The requested chain code on a data line: second whitespace-separated
token of the stripped line. -/
def reqOf (d : String) : String := pyStrip ((pySplit (stripLine d)).getD 1 "")

/-- The legacy chain code on a data line: first whitespace-separated token
of the stripped line. -/
def legOf (d : String) : String := pyStrip ((pySplit (stripLine d)).getD 0 "")

/-- The text lines of the mapping file a list of blocks describes. -/
def renderBlocks (blocks : List BundleBlock) : List String :=
  blocks.flatMap (fun b => b.header :: b.datas)

/-- A data line is well formed when it is not itself a header and is
either blank (skipped) or carries exactly two whitespace-separated
tokens. -/
abbrev WFData (d : String) : Prop :=
  strContains (stripLine d) "pdb-bundle" = false ∧
    (stripLine d = "" ∨ (pySplit (stripLine d)).length = 2)

/-- A block is well formed when its header contains the `pdb-bundle`
marker and all its data lines are well formed. -/
abbrev WFBlock (b : BundleBlock) : Prop :=
  strContains (stripLine b.header) "pdb-bundle" = true ∧ ∀ d ∈ b.datas, WFData d

/-- The (requested code, member file, legacy code) triples a block lists,
blank lines skipped. -/
def pairsOfBlock (b : BundleBlock) : List (String × String × String) :=
  (b.datas.filter (fun d => stripLine d != "")).map (fun d => (reqOf d, memberOf b, legOf d))

/-- All (requested code, member file, legacy code) triples of a mapping
file. -/
def filePairs (blocks : List BundleBlock) : List (String × String × String) :=
  blocks.flatMap pairsOfBlock

/-- The text written for a matching ATOM/HETATM record whose csv field is
the whole line `s`, per the three length cases of the requested chain
code (the final case also covers the degenerate empty code, for which the
assignment `newLine[21] = chain` erases the column). -/
def rewriteAtom (chain s : String) : String :=
  if 2 < chain.data.length then String.mk (s.data.set 21 '%') ++ chain ++ "\n"
  else if 1 < chain.data.length then
    String.mk ((s.data.set 20 (chain.data.getD 0 ' ')).set 21 (chain.data.getD 1 ' ')) ++ "\n"
  else String.mk (s.data.take 21) ++ chain ++ String.mk (s.data.drop 22) ++ "\n"

/-- The per-line output contribution of the remapper, as the spec
describes it: non-atom lines are copied with a terminator; an atom record
whose chain column (character at 0-based index 21) differs from the
legacy code contributes nothing; a matching atom record contributes its
rewritten form.  Stated on the raw line; it coincides with the code's
behavior on lines that the csv reader returns whole (no comma and no
double-quote character). -/
def specLineOut (chain newChain : String) (l : String) : Option String :=
  if startsWithPy l "ATOM" || startsWithPy l "HETATM" then
    if chStr (l.data.getD 21 ' ') == newChain then some (rewriteAtom chain l) else none
  else some (l ++ "\n")

/-- The `mapFile` pairs a well-formed mapping file produces, in file
order. -/
def mapFilePairs (blocks : List BundleBlock) : Dict :=
  (filePairs blocks).map (fun p => (p.1, p.2.1))

/-- The `mapChain` pairs a well-formed mapping file produces, in file
order. -/
def mapChainPairs (blocks : List BundleBlock) : Dict :=
  (filePairs blocks).map (fun p => (p.1, p.2.2))

example : parsePdbBundleChainIdFile ["1abc.pdb1", "A B"] = some ([], []) := by decide
example : parsePdbBundleChainIdFile ["1abc-pdb-bundle1.pdb:", "A B"] =
    some ([("B", "1abc-pdb-bundle1.pdb")], [("B", "A")]) := by decide
example : parsePdbBundleChainIdFile ["x-pdb-bundle:", "A"] = none := by decide
example : bundleDispatch "/tmp" "B" [("B", "f.pdb")] [("B", "A")] =
    some (.translate "/tmp/f.pdb" "B" (some "A")) := by decide
example : bundleDispatch "/tmp" "B" [("B", "f.pdb")] [("B", "B")] =
    some (.moveAndFilter "/tmp/f.pdb") := by decide
example : bundleDispatch "/tmp" "Z" [("B", "f.pdb")] [("B", "A")] = none := by decide

example : csvSplitLine "REMARK 1,2" = ["REMARK 1", "2"] := by decide
example : csvSplitLine "" = [] := by decide
example : csvSplitLine "a\"b,c" = ["a\"b", "c"] := by decide
example : csvSplitLine "\"quoted,x\" rest" = ["quoted,x rest"] := by decide
example : translateLine "B" "A" "REMARK 1,2" = some (some "REMARK 1\n") := by decide
example : translateLine "B" "A" "" = none := by decide
example : translateLine "Z" "A" "ATOM                BA" =
    some (some "ATOM                BZ\n") := by decide
example : translateLine "XY" "A" "ATOM                BA" =
    some (some "ATOM                XY\n") := by decide
example : translateLine "LONG" "A" "ATOM                BA" =
    some (some "ATOM                B%LONG\n") := by decide
example : translateLine "Z" "C" "ATOM                BA" = some none := by decide
example : translateLine "Z" "C" "ATOM short" = none := by decide

/-! ### Helper lemmas on strings and lists -/

theorem mk_append (a b : List Char) : String.mk a ++ String.mk b = String.mk (a ++ b) := rfl

theorem join_foldl_chStr (l : List Char) :
    ∀ acc : List Char, (List.map chStr l).foldl (fun r s => r ++ s) (String.mk acc) =
      String.mk (acc ++ l) := by
  induction l with
  | nil => intro acc; simp
  | cons c cs ih =>
    intro acc
    have h1 : String.mk acc ++ chStr c = String.mk (acc ++ [c]) := rfl
    simp only [List.map_cons, List.foldl_cons, h1, ih, List.append_assoc, List.singleton_append]

theorem join_map_chStr (l : List Char) : String.join (List.map chStr l) = String.mk l := by
  have h := join_foldl_chStr l []
  simpa [String.join] using h

theorem str_nil_append (s : String) : "" ++ s = s := by
  cases s with
  | mk d => show String.mk ([] ++ d) = String.mk d; simp

theorem str_append_nil (s : String) : s ++ "" = s := by
  cases s with
  | mk d => show String.mk (d ++ []) = String.mk d; simp

theorem str_append_assoc (a b c : String) : a ++ b ++ c = a ++ (b ++ c) := by
  cases a with
  | mk da =>
    cases b with
    | mk db =>
      cases c with
      | mk dc => show String.mk (da ++ db ++ dc) = String.mk (da ++ (db ++ dc)); simp

theorem join_acc (ls : List String) :
    ∀ acc : String, ls.foldl (fun r s => r ++ s) acc = acc ++ String.join ls := by
  induction ls with
  | nil => intro acc; show acc = acc ++ ""; rw [str_append_nil]
  | cons t ts ih =>
    intro acc
    show ts.foldl (fun r s => r ++ s) (acc ++ t) = acc ++ String.join (t :: ts)
    rw [ih (acc ++ t)]
    show acc ++ t ++ String.join ts = acc ++ ts.foldl (fun r s => r ++ s) ("" ++ t)
    rw [ih ("" ++ t), str_nil_append, str_append_assoc]

theorem join_cons (s : String) (ls : List String) :
    String.join (s :: ls) = s ++ String.join ls := by
  show ls.foldl (fun r t => r ++ t) ("" ++ s) = s ++ String.join ls
  rw [join_acc, str_nil_append]

theorem join_append (l1 l2 : List String) :
    String.join (l1 ++ l2) = String.join l1 ++ String.join l2 := by
  induction l1 with
  | nil => simp [join_cons, str_nil_append]; rfl
  | cons t ts ih =>
    rw [List.cons_append, join_cons, ih, join_cons, str_append_assoc]

theorem join_map_chStr_mid (a : List Char) (x : String) (b : List Char) :
    String.join (List.map chStr a ++ x :: List.map chStr b) =
      String.mk a ++ x ++ String.mk b := by
  rw [join_append, join_cons, join_map_chStr, join_map_chStr, str_append_assoc]

theorem translateLine_atom (chain newChain s : String)
    (hf : csvSplitLine s = [s])
    (hatom : startsWithPy s "ATOM" = true ∨ startsWithPy s "HETATM" = true)
    (hlen : 21 < s.data.length) :
    translateLine chain newChain s =
      if chStr (s.data.getD 21 ' ') == newChain then some (some (rewriteAtom chain s))
      else some none := by
  have hor : (startsWithPy s "ATOM" || startsWithPy s "HETATM") = true := by
    rcases hatom with h | h <;> simp [h]
  have hlen' : 21 < (s.data.map chStr).length := by simpa using hlen
  have hget : (s.data.map chStr).get ⟨21, hlen'⟩ = chStr (s.data.getD 21 ' ') := by
    rw [List.get_eq_getElem, List.getElem_map, List.getD_eq_getElem s.data ' ' hlen]
  unfold translateLine
  rw [hf]
  simp only [hor, if_true, dif_pos hlen', hget]
  cases hc : (chStr (s.data.getD 21 ' ') == newChain) with
  | false => simp
  | true =>
    simp only [if_true]
    unfold rewriteAtom
    by_cases h3 : 2 < chain.data.length
    · simp only [if_pos h3]
      congr 1
      congr 1
      rw [← List.map_append]
      have hpct : ("%" : String) = chStr '%' := rfl
      rw [hpct, ← List.map_set, join_map_chStr]
      rw [List.set_append, if_pos hlen]
      rw [← mk_append]
    · by_cases h2 : 1 < chain.data.length
      · simp only [if_neg h3, if_pos h2]
        congr 1
        congr 1
        rw [← List.map_set, ← List.map_set, join_map_chStr]
      · simp only [if_neg h3, if_neg h2]
        congr 1
        congr 1
        rw [List.set_eq_take_cons_drop chain hlen', ← List.map_take, ← List.map_drop,
          join_map_chStr_mid]

theorem list_set_self {α : Type} (l : List α) (i : Nat) (h : i < l.length) :
    l.set i (l.get ⟨i, h⟩) = l := by
  apply List.ext_getElem?
  intro j
  rw [List.getElem?_set]
  by_cases hij : i = j
  · subst hij
    rw [if_pos rfl, if_pos h, List.get_eq_getElem, List.getElem?_eq_getElem h]
  · rw [if_neg hij]

theorem translateLine_nonatom (chain newChain l : String)
    (hf : csvSplitLine l = [l])
    (hna : ¬(startsWithPy l "ATOM" = true ∨ startsWithPy l "HETATM" = true)) :
    translateLine chain newChain l = some (some (l ++ "\n")) := by
  have hor : (startsWithPy l "ATOM" || startsWithPy l "HETATM") = false := by
    push_neg at hna
    simp [hna.1, hna.2]
  unfold translateLine
  rw [hf]
  simp [hor]

theorem csvAux_inField (cs : List Char) :
    ∀ acc : List Char, ∃ t, csvAux .inField acc cs =
      (acc ++ cs.takeWhile (fun c => c != ',')) :: t := by
  induction cs with
  | nil => intro acc; exact ⟨[], by simp [csvAux]⟩
  | cons c cs ih =>
    intro acc
    by_cases hc : c = ','
    · subst hc
      refine ⟨csvAux .atFieldStart [] cs, ?_⟩
      simp [csvAux, List.takeWhile_cons]
    · obtain ⟨t, ht⟩ := ih (acc ++ [c])
      refine ⟨t, ?_⟩
      rw [show csvAux .inField acc (c :: cs) = csvAux .inField (acc ++ [c]) cs from by
        simp [csvAux, hc]]
      rw [ht]
      have hpc : (c != ',') = true := by simp [hc]
      simp [List.takeWhile_cons, hpc]

theorem csvSplitLine_head (s : String) (c : Char) (cs : List Char)
    (hdata : s.data = c :: cs) (hc1 : c ≠ ',') (hc2 : c ≠ '"') :
    ∃ t, csvSplitLine s = String.mk (s.data.takeWhile (fun c => c != ',')) :: t := by
  obtain ⟨t, ht⟩ := csvAux_inField cs [c]
  refine ⟨t.map String.mk, ?_⟩
  unfold csvSplitLine
  rw [hdata]
  rw [if_neg (by simp)]
  have hstep : csvAux .atFieldStart [] (c :: cs) = csvAux .inField [c] cs := by
    simp [csvAux, hc1, hc2]
  rw [hstep, ht]
  have hpc : (c != ',') = true := by simp [hc1]
  simp [List.takeWhile_cons, hpc]

theorem prefix_takeWhile {α : Type} (p : α → Bool) (pre l : List α)
    (h : pre <+: l) (hall : ∀ c ∈ pre, p c = true) : pre <+: l.takeWhile p := by
  obtain ⟨t, rfl⟩ := h
  rw [List.takeWhile_append_of_pos hall]
  exact ⟨t.takeWhile p, rfl⟩

theorem csvField0_of_prefix (s : String) (pre : List Char)
    (hp : pre <+: s.data) (hne : pre ≠ []) (hnc : ∀ c ∈ pre, c ≠ ',')
    (hnq : ∀ c ∈ pre, c ≠ '"') :
    ∃ t, csvSplitLine s = String.mk (s.data.takeWhile (fun c => c != ',')) :: t ∧
      pre <+: s.data.takeWhile (fun c => c != ',') := by
  obtain ⟨c, cs, hdata, hcm⟩ : ∃ c cs, s.data = c :: cs ∧ c ∈ pre := by
    obtain ⟨t, ht⟩ := hp
    cases pre with
    | nil => exact absurd rfl hne
    | cons x xs => exact ⟨x, xs ++ t, by rw [← ht]; simp, by simp⟩
  obtain ⟨t, ht⟩ := csvSplitLine_head s c cs hdata (hnc c hcm) (hnq c hcm)
  refine ⟨t, ht, prefix_takeWhile _ pre s.data hp ?_⟩
  intro x hx
  simp [hnc x hx]

theorem translateLine_short (chain newChain s : String)
    (hatom : startsWithPy s "ATOM" = true ∨ startsWithPy s "HETATM" = true)
    (hlen : s.data.length < 22) :
    translateLine chain newChain s = none := by
  have hmain : ∀ pre : List Char, pre <+: s.data → pre ≠ [] →
      (∀ c ∈ pre, c ≠ ',') → (∀ c ∈ pre, c ≠ '"') →
      (∀ f : String, pre <+: f.data →
        (startsWithPy f "ATOM" || startsWithPy f "HETATM") = true) →
      translateLine chain newChain s = none := by
    intro pre hp hne hnc hnq hor
    obtain ⟨t, ht, hfp⟩ := csvField0_of_prefix s pre hp hne hnc hnq
    have hflen : (s.data.takeWhile (fun c => c != ',')).length < 22 :=
      Nat.lt_of_le_of_lt ((List.takeWhile_prefix _).length_le) hlen
    unfold translateLine
    simp only [ht]
    rw [if_pos (hor _ hfp)]
    rw [dif_neg (by simpa using Nat.not_lt.mpr (Nat.lt_succ_iff.mp hflen))]
  rcases hatom with h | h
  · refine hmain "ATOM".data ?_ (by decide) (by decide) (by decide) ?_
    · exact (List.isPrefixOf_iff_prefix).mp h
    · intro f hf
      have : startsWithPy f "ATOM" = true := (List.isPrefixOf_iff_prefix).mpr hf
      simp [this]
  · refine hmain "HETATM".data ?_ (by decide) (by decide) (by decide) ?_
    · exact (List.isPrefixOf_iff_prefix).mp h
    · intro f hf
      have : startsWithPy f "HETATM" = true := (List.isPrefixOf_iff_prefix).mpr hf
      simp [this]

theorem parse_none_of_mem (lines : List String) (chain newChain s : String)
    (hs : s ∈ lines) (h : translateLine chain newChain s = none) :
    parsePdbAndTranslateChain lines chain newChain = none := by
  induction lines with
  | nil => cases hs
  | cons l rest ih =>
    rcases List.mem_cons.mp hs with heq | hmem
    · subst heq
      unfold parsePdbAndTranslateChain
      simp only [h]
    · unfold parsePdbAndTranslateChain
      cases htl : translateLine chain newChain l with
      | none => rfl
      | some o => simp only [ih hmem, Option.map_none']

theorem translateLine_spec (chain newChain l : String)
    (hf : csvSplitLine l = [l])
    (hsome : translateLine chain newChain l ≠ none) :
    translateLine chain newChain l = some (specLineOut chain newChain l) := by
  by_cases hatom : startsWithPy l "ATOM" = true ∨ startsWithPy l "HETATM" = true
  · have hlen : 21 < l.data.length := by
      by_contra hcon
      exact hsome (translateLine_short chain newChain l hatom
        (Nat.lt_succ_of_le (Nat.not_lt.mp hcon)))
    rw [translateLine_atom chain newChain l hf hatom hlen]
    unfold specLineOut
    have hor : (startsWithPy l "ATOM" || startsWithPy l "HETATM") = true := by
      rcases hatom with h | h <;> simp [h]
    rw [if_pos hor]
    cases hc : (chStr (l.data.getD 21 ' ') == newChain) <;> simp
  · rw [translateLine_nonatom chain newChain l hf hatom]
    unfold specLineOut
    have hor : (startsWithPy l "ATOM" || startsWithPy l "HETATM") = false := by
      push_neg at hatom
      simp [hatom.1, hatom.2]
    rw [if_neg (by simp [hor])]

theorem mk_mid (a b : List Char) (x : String) :
    String.mk a ++ x ++ String.mk b = String.mk (a ++ x.data ++ b) := by
  cases x with
  | mk d => rw [mk_append, mk_append]

/-! ### Claims about the chain remapper -/

/-- C1: for an ATOM/HETATM line (returned whole by the csv reader) whose
chain-ID column (the character at 0-based index 21) equals the legacy code
`newChain`, `parsePdbAndTranslateChain` rewrites the chain encoding
according to the length of the requested code `chain`: length at least 3
appends the code verbatim and puts the sentinel `%` in the chain column;
length 2 writes the two characters into the column preceding the chain
column and the chain column; length 1 writes the single character into
the chain column; in each case the rest of the line is unchanged and the
line is emitted with a terminator.  The hypothesis `csvSplitLine s = [s]`
states that the line conforms to the legacy fixed-column layout to the
extent the csv reader needs (no comma, no double quote), which the spec
assumes of remapper inputs. -/
theorem C1_rewrite_by_requested_length (chain newChain s : String)
    (hf : csvSplitLine s = [s])
    (hatom : startsWithPy s "ATOM" = true ∨ startsWithPy s "HETATM" = true)
    (hlen : 21 < s.data.length)
    (hmatch : chStr (s.data.getD 21 ' ') = newChain) :
    (3 ≤ chain.data.length → translateLine chain newChain s =
      some (some (String.mk (s.data.set 21 '%') ++ chain ++ "\n"))) ∧
    (chain.data.length = 2 → translateLine chain newChain s =
      some (some (String.mk ((s.data.set 20 (chain.data.getD 0 ' ')).set 21
        (chain.data.getD 1 ' ')) ++ "\n"))) ∧
    (chain.data.length = 1 → translateLine chain newChain s =
      some (some (String.mk (s.data.set 21 (chain.data.getD 0 ' ')) ++ "\n"))) := by
  rw [translateLine_atom chain newChain s hf hatom hlen]
  rw [if_pos (by simp only [beq_iff_eq]; exact hmatch)]
  unfold rewriteAtom
  refine ⟨?_, ?_, ?_⟩
  · intro h3
    rw [if_pos (by omega)]
  · intro h2
    rw [if_neg (by omega), if_pos (by omega)]
  · intro h1
    rw [if_neg (by omega), if_neg (by omega)]
    obtain ⟨c, hc⟩ := List.length_eq_one.mp h1
    have hchain : chain = chStr c := by
      cases chain with
      | mk d => simp only at hc; rw [hc]; rfl
    have hLHS : String.mk (s.data.take 21) ++ chain ++ String.mk (s.data.drop 22) =
        String.mk (s.data.set 21 c) := by
      rw [hchain, mk_mid]
      congr 1
      rw [List.set_eq_take_cons_drop c hlen]
      simp [chStr]
    rw [hLHS, hc]
    simp only [List.getD_cons_zero]

/-- C1 witness: a concrete 22-character ATOM line of legacy chain `A`,
requested code `B` (length 1). -/
theorem C1_rewrite_by_requested_length_witness :
    translateLine "B" "A" "ATOM                 A" =
      some (some (String.mk (("ATOM                 A").data.set 21
        (("B").data.getD 0 ' ')) ++ "\n")) :=
  (C1_rewrite_by_requested_length "B" "A" "ATOM                 A"
    (by decide) (Or.inl (by decide)) (by decide) (by decide)).2.2 (by decide)

/-- C9: when the requested code is the single character already in the
chain column and equals the legacy code, a matching ATOM/HETATM line is
emitted byte-identical to the input, up to the appended terminator. -/
theorem C9_identity_case (chain s : String)
    (hf : csvSplitLine s = [s])
    (hatom : startsWithPy s "ATOM" = true ∨ startsWithPy s "HETATM" = true)
    (hlen : 21 < s.data.length)
    (hchain : chain = chStr (s.data.getD 21 ' ')) :
    translateLine chain chain s = some (some (s ++ "\n")) := by
  rw [translateLine_atom chain chain s hf hatom hlen]
  rw [if_pos (by simp only [beq_iff_eq]; exact hchain.symm)]
  have hcl : chain.data.length = 1 := by rw [hchain]; rfl
  unfold rewriteAtom
  rw [if_neg (by omega), if_neg (by omega)]
  have hgetd : s.data.getD 21 ' ' = s.data.get ⟨21, hlen⟩ := by
    rw [List.getD_eq_getElem s.data ' ' hlen, List.get_eq_getElem]
  have hset : s.data.set 21 (s.data.get ⟨21, hlen⟩) = s.data := list_set_self s.data 21 hlen
  have hexp : String.mk (s.data.take 21) ++ chain ++ String.mk (s.data.drop 22) =
      String.mk s.data := by
    rw [hchain, hgetd, mk_mid]
    congr 1
    have h2 := List.set_eq_take_cons_drop (s.data.get ⟨21, hlen⟩) hlen
    rw [hset] at h2
    have h3 : s.data.take 21 ++ (chStr (s.data.get ⟨21, hlen⟩)).data ++ s.data.drop 22 =
        s.data.take 21 ++ s.data.get ⟨21, hlen⟩ :: s.data.drop (21 + 1) := by
      simp [chStr]
    rw [h3, ← h2]
  rw [hexp]

/-- C9 witness: requested code `A` equal to the legacy code on a concrete
line. -/
theorem C9_identity_case_witness :
    translateLine "A" "A" "ATOM                 A" =
      some (some ("ATOM                 A" ++ "\n")) :=
  C9_identity_case "A" "ATOM                 A"
    (by decide) (Or.inl (by decide)) (by decide) (by decide)

/-- C3 counterexample: on a line whose character at 1-indexed column 21
(0-based index 20) is `B`, different from the legacy code `A`, the claim
predicts the line is dropped; the code instead keeps it (it inspects
0-based index 21, which holds `A`) and, rewriting with the 1-character
code `Z`, writes `Z` at 0-based index 21, leaving index 20 untouched.
With the 2-character code `XY` the first character lands at 0-based
index 20 (1-indexed column 21), not at 1-indexed column 20 (0-based 19),
which still holds a space. -/
theorem C3_counterexample :
    translateLine "Z" "A" "ATOM                BA" =
      some (some "ATOM                BZ\n") ∧
    ("ATOM                BA").data.getD 20 ' ' ≠ 'A' ∧
    translateLine "XY" "A" "ATOM                BA" =
      some (some "ATOM                XY\n") ∧
    ("ATOM                XY\n").data.getD 19 ' ' ≠ 'X' ∧
    ("ATOM                XY\n").data.getD 19 ' ' = ' ' := by
  refine ⟨by decide, by decide, by decide, by decide, by decide⟩

/-- C3 amended: the character inspected to decide keep-versus-drop, and
the one rewritten for a 1-character requested code, is at 0-based index 21
(column 22 in 1-indexed counting), and the first character of a
2-character requested code is written at 0-based index 20 (column 21 in
1-indexed counting). -/
theorem C3_zero_based_columns (chain newChain s : String)
    (hf : csvSplitLine s = [s])
    (hatom : startsWithPy s "ATOM" = true ∨ startsWithPy s "HETATM" = true)
    (hlen : 21 < s.data.length) :
    (translateLine chain newChain s = some none ↔
      chStr (s.data.getD 21 ' ') ≠ newChain) ∧
    (chain.data.length = 2 → chStr (s.data.getD 21 ' ') = newChain →
      translateLine chain newChain s =
        some (some (String.mk ((s.data.set 20 (chain.data.getD 0 ' ')).set 21
          (chain.data.getD 1 ' ')) ++ "\n"))) := by
  rw [translateLine_atom chain newChain s hf hatom hlen]
  constructor
  · by_cases hc : chStr (s.data.getD 21 ' ') = newChain
    · rw [if_pos (by simp only [beq_iff_eq]; exact hc)]
      constructor
      · intro h
        injection h with h2
        cases h2
      · intro hn
        exact absurd hc hn
    · rw [if_neg (by simp only [beq_iff_eq]; exact hc)]
      exact iff_of_true rfl hc
  · intro h2 hc
    rw [if_pos (by simp only [beq_iff_eq]; exact hc)]
    unfold rewriteAtom
    rw [if_neg (by omega), if_pos (by omega)]

/-- C3 amended witness: dropping decided at 0-based index 21, and the
2-character placement, on concrete lines. -/
theorem C3_zero_based_columns_witness :
    (translateLine "XY" "A" "ATOM                BA" = some none ↔
      chStr (("ATOM                BA").data.getD 21 ' ') ≠ "A") ∧
    translateLine "XY" "A" "ATOM                BA" =
      some (some (String.mk ((("ATOM                BA").data.set 20
        (("XY").data.getD 0 ' ')).set 21 (("XY").data.getD 1 ' ')) ++ "\n")) := by
  have h := C3_zero_based_columns "XY" "A" "ATOM                BA"
    (by decide) (Or.inl (by decide)) (by decide)
  exact ⟨h.1, h.2 (by decide) (by decide)⟩

/-- C5: the code does not copy every non-atom line unchanged.  It reads
the file through `csv.reader` and writes only the record's first field:
a non-atom line containing a comma is truncated at the comma, and a blank
line makes the whole call raise `IndexError` (`line[0]` on the empty
record).  The claim (and the spec's "copy it unchanged") describes the
evident intent; the csv-reader round trip is a slip in the code. -/
theorem C5_nonatom_csv_divergence :
    translateLine "B" "A" "REMARK 1,2" = some (some "REMARK 1\n") ∧
    "REMARK 1\n" ≠ "REMARK 1,2" ++ "\n" ∧
    translateLine "B" "A" "" = none ∧
    parsePdbAndTranslateChain ["REMARK 1,2"] "B" "A" = some ["REMARK 1\n"] ∧
    parsePdbAndTranslateChain ["REMARK ok", ""] "B" "A" = none := by
  refine ⟨by decide, by decide, by decide, by decide, by decide⟩

/-- C6: an ATOM/HETATM line shorter than 22 characters (too short to
reach the chain-ID column at 0-based index 21) makes the whole call fail:
no output list is produced at all, so no output is derived from the
malformed line and it is not skipped. -/
theorem C6_short_atom_record_fatal (lines : List String) (chain newChain s : String)
    (hs : s ∈ lines)
    (hatom : startsWithPy s "ATOM" = true ∨ startsWithPy s "HETATM" = true)
    (hlen : s.data.length < 22) :
    parsePdbAndTranslateChain lines chain newChain = none :=
  parse_none_of_mem lines chain newChain s hs
    (translateLine_short chain newChain s hatom hlen)

/-- C6 witness: a file with a well-formed line and a short ATOM line. -/
theorem C6_short_atom_record_fatal_witness :
    parsePdbAndTranslateChain ["HEADER t", "ATOM short"] "B" "A" = none :=
  C6_short_atom_record_fatal ["HEADER t", "ATOM short"] "B" "A" "ATOM short"
    (by decide) (Or.inl (by decide)) (by decide)

/-- C4: on a successful run over lines the csv reader returns whole, the
output is exactly the per-line contributions: each ATOM/HETATM line whose
chain column differs from the legacy code contributes nothing, each
matching one contributes exactly its rewritten form, and each non-atom
line contributes its copy. -/
theorem C4_output_is_line_contributions (lines : List String) (chain newChain : String)
    (out : List String)
    (hf : ∀ l ∈ lines, csvSplitLine l = [l])
    (hout : parsePdbAndTranslateChain lines chain newChain = some out) :
    out = lines.filterMap (specLineOut chain newChain) := by
  induction lines generalizing out with
  | nil =>
    unfold parsePdbAndTranslateChain at hout
    cases hout
    rfl
  | cons l rest ih =>
    unfold parsePdbAndTranslateChain at hout
    cases htl : translateLine chain newChain l with
    | none => rw [htl] at hout; cases hout
    | some o =>
      rw [htl] at hout
      cases hr : parsePdbAndTranslateChain rest chain newChain with
      | none => rw [hr] at hout; cases hout
      | some outr =>
        rw [hr] at hout
        have hout' : o.toList ++ outr = out := by
          simpa using hout
        have hspec := translateLine_spec chain newChain l (hf l (List.mem_cons_self l rest))
          (by rw [htl]; exact Option.noConfusion)
        rw [htl] at hspec
        have ho : o = specLineOut chain newChain l := by
          injection hspec
        have hrest : outr = rest.filterMap (specLineOut chain newChain) :=
          ih outr (fun x hx => hf x (List.mem_cons_of_mem l hx)) hr
        rw [List.filterMap_cons, ← ho, ← hrest, ← hout']
        cases o <;> simp

/-- C4 witness: a three-line file with one matching atom record, one
non-matching atom record and one header line. -/
theorem C4_output_is_line_contributions_witness :
    (["ATOM                 A", "ATOM                 B", "HEADER t"].filterMap
      (specLineOut "Q" "A")) = ["ATOM                 Q\n", "HEADER t\n"] :=
  (C4_output_is_line_contributions
    ["ATOM                 A", "ATOM                 B", "HEADER t"] "Q" "A"
    ["ATOM                 Q\n", "HEADER t\n"] (by decide) (by decide)).symm

/-! ### Helper lemmas on the bundle mapping parser -/

theorem strContains_length_le (s p : String) (h : strContains s p = true) :
    p.data.length ≤ s.data.length := by
  unfold strContains at h
  rw [List.any_eq_true] at h
  obtain ⟨i, _, hp⟩ := h
  have h1 := (List.isPrefixOf_iff_prefix.mp hp).length_le
  have h2 : (s.data.drop i).length ≤ s.data.length := by
    rw [List.length_drop]
    omega
  omega

theorem header_member_ne (x : String) (h : strContains x "pdb-bundle" = true) :
    strDropLast x ≠ "" := by
  have h10 : ("pdb-bundle" : String).data.length ≤ x.data.length :=
    strContains_length_le x "pdb-bundle" h
  have h10' : ("pdb-bundle" : String).data.length = 10 := rfl
  intro hc
  have hdata : x.data.dropLast = [] := congrArg String.data hc
  have hlen := congrArg List.length hdata
  rw [List.length_dropLast] at hlen
  have hlen2 : x.data.length - 1 = 0 := hlen
  omega

theorem loop_header (l : String) (rest : List String) (af : String) (mf mc : Dict)
    (h : strContains (stripLine l) "pdb-bundle" = true) :
    parseBundleLoop (l :: rest) af mf mc =
      parseBundleLoop rest (strDropLast (stripLine l)) mf mc := by
  conv_lhs => unfold parseBundleLoop
  rw [if_pos h]

theorem loop_skip (l : String) (rest : List String) (af : String) (mf mc : Dict)
    (hnh : strContains (stripLine l) "pdb-bundle" = false)
    (hskip : af = "" ∨ stripLine l = "") :
    parseBundleLoop (l :: rest) af mf mc = parseBundleLoop rest af mf mc := by
  conv_lhs => unfold parseBundleLoop
  rw [if_neg (by simp [hnh])]
  have hcond : (af != "" && stripLine l != "") = false := by
    rcases hskip with h | h <;> simp [h]
  rw [if_neg (by simp [hcond])]

theorem loop_data (l : String) (rest : List String) (af : String) (mf mc : Dict)
    (hnh : strContains (stripLine l) "pdb-bundle" = false)
    (haf : af ≠ "") (t0 t1 : String) (ts : List String)
    (hsplit : pySplit (stripLine l) = t0 :: t1 :: ts) :
    parseBundleLoop (l :: rest) af mf mc =
      parseBundleLoop rest af (dinsert (pyStrip t1) af mf)
        (dinsert (pyStrip t1) (pyStrip t0) mc) := by
  have hline : stripLine l ≠ "" := by
    intro h
    have h0 : pySplit "" = [] := rfl
    rw [h, h0] at hsplit
    exact List.noConfusion hsplit
  conv_lhs => unfold parseBundleLoop
  rw [if_neg (by simp [hnh])]
  rw [if_pos (by simp [haf, hline])]
  simp only [hsplit]

theorem loop_data_short (l : String) (rest : List String) (af : String) (mf mc : Dict)
    (hnh : strContains (stripLine l) "pdb-bundle" = false)
    (haf : af ≠ "") (hline : stripLine l ≠ "")
    (hshort : (pySplit (stripLine l)).length ≤ 1) :
    parseBundleLoop (l :: rest) af mf mc = none := by
  conv_lhs => unfold parseBundleLoop
  rw [if_neg (by simp [hnh])]
  rw [if_pos (by simp [haf, hline])]
  cases hsp : pySplit (stripLine l) with
  | nil => simp only [hsp]
  | cons t0 ts0 =>
    cases ts0 with
    | nil => simp only [hsp]
    | cons t1 ts1 =>
      rw [hsp] at hshort
      simp at hshort

theorem loop_bad_after (b : String) (post : List String)
    (hnb : strContains (stripLine b) "pdb-bundle" = false)
    (h1 : (pySplit (stripLine b)).length = 1) :
    ∀ (mid : List String) (af : String) (mf mc : Dict), af ≠ "" →
      parseBundleLoop (mid ++ b :: post) af mf mc = none := by
  have hline : stripLine b ≠ "" := by
    intro h
    rw [h] at h1
    exact absurd h1 (by decide)
  intro mid
  induction mid with
  | nil =>
    intro af mf mc haf
    rw [List.nil_append]
    exact loop_data_short b post af mf mc hnb haf hline (by omega)
  | cons l ls ih =>
    intro af mf mc haf
    rw [List.cons_append]
    by_cases hh : strContains (stripLine l) "pdb-bundle" = true
    · rw [loop_header l _ af mf mc hh]
      exact ih _ mf mc (header_member_ne _ hh)
    · have hh' : strContains (stripLine l) "pdb-bundle" = false :=
        Bool.eq_false_iff.mpr hh
      by_cases hl : stripLine l = ""
      · rw [loop_skip l _ af mf mc hh' (Or.inr hl)]
        exact ih af mf mc haf
      · cases hsp : pySplit (stripLine l) with
        | nil =>
          exact loop_data_short l _ af mf mc hh' haf hl (by rw [hsp]; simp)
        | cons t0 ts0 =>
          cases ts0 with
          | nil =>
            exact loop_data_short l _ af mf mc hh' haf hl (by rw [hsp]; simp)
          | cons t1 ts1 =>
            rw [loop_data l _ af mf mc hh' haf t0 t1 ts1 hsp]
            exact ih af _ _ haf

/-! ### Claims about the bundle mapping reader and the download dispatch -/

/-- C10: the parser is total only when every data line inside a block has
at least two whitespace-separated tokens: any file containing, somewhere
after a header line, a non-blank single-token line (itself not a header)
makes `parsePdbBundleChainIdFile` raise `IndexError` at `mapping[1]`
instead of returning tables. -/
theorem C10_single_token_line_fatal (pre mid post : List String) (hdr b : String)
    (hh : strContains (stripLine hdr) "pdb-bundle" = true)
    (hnb : strContains (stripLine b) "pdb-bundle" = false)
    (h1 : (pySplit (stripLine b)).length = 1) :
    parsePdbBundleChainIdFile (pre ++ hdr :: mid ++ b :: post) = none := by
  suffices H : ∀ (pre : List String) (af : String) (mf mc : Dict),
      parseBundleLoop (pre ++ hdr :: mid ++ b :: post) af mf mc = none by
    exact H pre "" [] []
  intro pre
  induction pre with
  | nil =>
    intro af mf mc
    simp only [List.nil_append, List.cons_append]
    rw [loop_header hdr _ af mf mc hh]
    exact loop_bad_after b post hnb h1 mid _ mf mc (header_member_ne _ hh)
  | cons l ls ih =>
    intro af mf mc
    simp only [List.cons_append]
    by_cases hlh : strContains (stripLine l) "pdb-bundle" = true
    · rw [loop_header l _ af mf mc hlh]
      exact ih _ mf mc
    · have hlh' : strContains (stripLine l) "pdb-bundle" = false :=
        Bool.eq_false_iff.mpr hlh
      by_cases haf : af = ""
      · rw [loop_skip l _ af mf mc hlh' (Or.inl haf)]
        exact ih af mf mc
      · by_cases hl : stripLine l = ""
        · rw [loop_skip l _ af mf mc hlh' (Or.inr hl)]
          exact ih af mf mc
        · cases hsp : pySplit (stripLine l) with
          | nil =>
            exact loop_data_short l _ af mf mc hlh' haf hl (by rw [hsp]; simp)
          | cons t0 ts0 =>
            cases ts0 with
            | nil =>
              exact loop_data_short l _ af mf mc hlh' haf hl (by rw [hsp]; simp)
            | cons t1 ts1 =>
              rw [loop_data l _ af mf mc hlh' haf t0 t1 ts1 hsp]
              exact ih af _ _

/-- C10 witness: a header followed by a one-token line. -/
theorem C10_single_token_line_fatal_witness :
    parsePdbBundleChainIdFile ["x-pdb-bundle1.pdb:", "A"] = none :=
  C10_single_token_line_fatal [] [] [] "x-pdb-bundle1.pdb:" "A"
    (by decide) (by decide) (by decide)

/-- C7: in the bundle-fallback path, a requested chain absent from the
parsed mapping tables makes the download fail (the member-file
concatenation raises `TypeError` on the `None` lookup result), rather
than proceeding with a null or empty member-file name. -/
theorem C7_absent_chain_fails (dir chain : String) (lines : List String)
    (mapFile mapChain : Dict)
    (hparse : parsePdbBundleChainIdFile lines = some (mapFile, mapChain))
    (habs : dget chain mapFile = none) :
    bundleDispatch dir chain mapFile mapChain = none := by
  unfold bundleDispatch
  simp only [habs]

/-- C7 witness: requesting chain `Z`, absent from a parsed one-block
mapping file. -/
theorem C7_absent_chain_fails_witness :
    bundleDispatch "/tmp" "Z" [("B", "1abc-pdb-bundle1.pdb")] [("B", "A")] = none :=
  C7_absent_chain_fails "/tmp" "Z" ["1abc-pdb-bundle1.pdb:", "A B"]
    [("B", "1abc-pdb-bundle1.pdb")] [("B", "A")] (by decide) (by decide)

/-- C8 counterexample: the line `1abc.pdb1` does not contain the
substring `pdb-bundle`, so the parser never treats it as a header; both
tables come back empty and the requested chain `B` is absent. -/
theorem C8_counterexample :
    parsePdbBundleChainIdFile ["1abc.pdb1", "A B"] = some ([], []) ∧
    ¬ ∃ mf mc : Dict, parsePdbBundleChainIdFile ["1abc.pdb1", "A B"] = some (mf, mc) ∧
      dget "B" mf = some "1abc.pdb1" ∧ dget "B" mc = some "A" := by
  refine ⟨by decide, ?_⟩
  rintro ⟨mf, mc, hp, h1, h2⟩
  have h0 : parsePdbBundleChainIdFile ["1abc.pdb1", "A B"] =
      some (([] : Dict), ([] : Dict)) := by decide
  rw [h0] at hp
  injection hp with hpair
  have hmf : ([] : Dict) = mf := congrArg Prod.fst hpair
  rw [← hmf] at h1
  exact absurd h1 (by decide)

/-- C8 amended: with a genuine bundle header line
`1abc-pdb-bundle1.pdb:` (containing `pdb-bundle`, final character
trimmed) followed by the data line `A B`, the requested chain `B` maps to
member file `1abc-pdb-bundle1.pdb` and legacy code `A`. -/
theorem C8_amended_bundle_header :
    parsePdbBundleChainIdFile ["1abc-pdb-bundle1.pdb:", "A B"] =
      some ([("B", "1abc-pdb-bundle1.pdb")], [("B", "A")]) ∧
    dget "B" [("B", "1abc-pdb-bundle1.pdb")] = some "1abc-pdb-bundle1.pdb" ∧
    dget "B" [("B", "A")] = some "A" := by
  refine ⟨by decide, by decide, by decide⟩

theorem dget_of_nodup (l : Dict) (k v : String)
    (hnd : (l.map Prod.fst).Nodup) (hmem : (k, v) ∈ l) : dget k l = some v := by
  induction l with
  | nil => cases hmem
  | cons p ps ih =>
    have hnd2 : (p.1 :: ps.map Prod.fst).Nodup := by
      rw [List.map_cons] at hnd
      exact hnd
    obtain ⟨hhead, htail⟩ := List.nodup_cons.mp hnd2
    by_cases hpk : p.1 = k
    · have hfind : List.find? (fun q => q.1 == k) (p :: ps) = some p :=
        List.find?_cons_of_pos ps (by simp [hpk])
      rcases List.mem_cons.mp hmem with heq | hmemtail
      · unfold dget
        rw [hfind]
        simp [← heq]
      · exfalso
        apply hhead
        rw [hpk]
        exact List.mem_map.mpr ⟨(k, v), hmemtail, rfl⟩
    · have hfind : List.find? (fun q => q.1 == k) (p :: ps) =
          List.find? (fun q => q.1 == k) ps :=
        List.find?_cons_of_neg ps (by simp [hpk])
      rcases List.mem_cons.mp hmem with heq | hmemtail
      · exfalso
        apply hpk
        rw [← heq]
      · unfold dget
        rw [hfind]
        exact ih htail hmemtail

theorem loop_datas_block (member : String) (hm : member ≠ "") :
    ∀ (datas : List String), (∀ d ∈ datas, WFData d) →
    ∀ (rest : List String) (mf mc : Dict),
      parseBundleLoop (datas ++ rest) member mf mc =
        parseBundleLoop rest member
          (((datas.filter (fun d => stripLine d != "")).map
            (fun d => (reqOf d, member))).reverse ++ mf)
          (((datas.filter (fun d => stripLine d != "")).map
            (fun d => (reqOf d, legOf d))).reverse ++ mc) := by
  intro datas
  induction datas with
  | nil => intro _ rest mf mc; simp
  | cons d ds ih =>
    intro hwf rest mf mc
    obtain ⟨hnh, hcase⟩ := hwf d (List.mem_cons_self d ds)
    have ihwf : ∀ x ∈ ds, WFData x := fun x hx => hwf x (List.mem_cons_of_mem d hx)
    rcases hcase with hblank | h2
    · have hfd : (d :: ds).filter (fun x => stripLine x != "") =
          ds.filter (fun x => stripLine x != "") := by
        rw [List.filter_cons, if_neg (by simp [hblank])]
      rw [hfd, List.cons_append, loop_skip d _ member mf mc hnh (Or.inr hblank)]
      exact ih ihwf rest mf mc
    · obtain ⟨t0, t1, hsplit⟩ := List.length_eq_two.mp h2
      have hne : stripLine d ≠ "" := by
        intro h
        have h0 : pySplit "" = [] := rfl
        rw [h, h0] at hsplit
        exact List.noConfusion hsplit
      have hreq : reqOf d = pyStrip t1 := by
        unfold reqOf
        rw [hsplit]
        rfl
      have hleg : legOf d = pyStrip t0 := by
        unfold legOf
        rw [hsplit]
        rfl
      have hfd : (d :: ds).filter (fun x => stripLine x != "") =
          d :: ds.filter (fun x => stripLine x != "") := by
        rw [List.filter_cons, if_pos (by simp [hne])]
      rw [hfd, List.cons_append, loop_data d _ member mf mc hnh hm t0 t1 [] hsplit]
      rw [ih ihwf rest (dinsert (pyStrip t1) member mf) (dinsert (pyStrip t1) (pyStrip t0) mc)]
      rw [List.map_cons, List.reverse_cons, List.append_assoc, List.map_cons,
        List.reverse_cons, List.append_assoc]
      rw [hreq, hleg]
      rfl

theorem loop_through_blocks :
    ∀ (blocks : List BundleBlock), (∀ b ∈ blocks, WFBlock b) →
    ∀ (af : String) (mf mc : Dict),
      parseBundleLoop (renderBlocks blocks) af mf mc =
        some ((mapFilePairs blocks).reverse ++ mf, (mapChainPairs blocks).reverse ++ mc) := by
  intro blocks
  induction blocks with
  | nil =>
    intro _ af mf mc
    simp [renderBlocks, mapFilePairs, mapChainPairs, filePairs]
    rfl
  | cons b bs ih =>
    intro hwf af mf mc
    obtain ⟨hh, hd⟩ := hwf b (List.mem_cons_self b bs)
    have hrender : renderBlocks (b :: bs) = b.header :: (b.datas ++ renderBlocks bs) := by
      unfold renderBlocks
      rw [List.flatMap_cons, List.cons_append]
    rw [hrender, loop_header b.header _ af mf mc hh]
    have hmem_eq : strDropLast (stripLine b.header) = memberOf b := rfl
    rw [hmem_eq]
    rw [loop_datas_block (memberOf b) (header_member_ne _ hh) b.datas hd (renderBlocks bs) mf mc]
    rw [ih (fun x hx => hwf x (List.mem_cons_of_mem b hx)) (memberOf b) _ _]
    have hsplitF : mapFilePairs (b :: bs) =
        ((b.datas.filter (fun d => stripLine d != "")).map
          (fun d => (reqOf d, memberOf b))) ++ mapFilePairs bs := by
      unfold mapFilePairs filePairs
      rw [List.flatMap_cons, List.map_append]
      unfold pairsOfBlock
      rw [List.map_map]
      rfl
    have hsplitC : mapChainPairs (b :: bs) =
        ((b.datas.filter (fun d => stripLine d != "")).map
          (fun d => (reqOf d, legOf d))) ++ mapChainPairs bs := by
      unfold mapChainPairs filePairs
      rw [List.flatMap_cons, List.map_append]
      unfold pairsOfBlock
      rw [List.map_map]
      rfl
    rw [hsplitF, hsplitC, List.reverse_append, List.reverse_append,
      List.append_assoc, List.append_assoc]

theorem dget_some_mem (l : Dict) (k v : String) (h : dget k l = some v) :
    k ∈ l.map Prod.fst := by
  unfold dget at h
  cases hf : List.find? (fun p => p.1 == k) l with
  | none => rw [hf] at h; cases h
  | some p =>
    have hmem := List.mem_of_find?_eq_some hf
    have hpk : p.1 = k := beq_iff_eq.mp (@List.find?_some _ (fun q => q.1 == k) p l hf)
    exact List.mem_map.mpr ⟨p, hmem, hpk⟩

/-- C2: for every well-formed bundle mapping file (blocks of a
`pdb-bundle` header line followed by two-token data lines, blank lines
skipped) whose requested codes are pairwise distinct, the parser succeeds
and returns tables in which every requested code listed in a block maps
in `mapFile` to that block's trimmed member-file name and in `mapChain`
to the legacy code of the same data line, and no other keys are
present. -/
theorem C2_mapping_round_trip (blocks : List BundleBlock)
    (hwf : ∀ b ∈ blocks, WFBlock b)
    (hnd : ((filePairs blocks).map (fun p => p.1)).Nodup) :
    (parsePdbBundleChainIdFile (renderBlocks blocks)).isSome = true ∧
    ∀ mf mc : Dict, parsePdbBundleChainIdFile (renderBlocks blocks) = some (mf, mc) →
      (∀ b ∈ blocks, ∀ d ∈ b.datas, stripLine d ≠ "" →
        dget (reqOf d) mf = some (memberOf b) ∧ dget (reqOf d) mc = some (legOf d)) ∧
      (∀ k v, dget k mf = some v → k ∈ (filePairs blocks).map (fun p => p.1)) ∧
      (∀ k v, dget k mc = some v → k ∈ (filePairs blocks).map (fun p => p.1)) := by
  have hloop := loop_through_blocks blocks hwf "" [] []
  rw [List.append_nil, List.append_nil] at hloop
  have hkeysF : (mapFilePairs blocks).map Prod.fst = (filePairs blocks).map (fun p => p.1) := by
    unfold mapFilePairs
    rw [List.map_map]
    rfl
  have hkeysC : (mapChainPairs blocks).map Prod.fst = (filePairs blocks).map (fun p => p.1) := by
    unfold mapChainPairs
    rw [List.map_map]
    rfl
  constructor
  · rw [parsePdbBundleChainIdFile, hloop]
    rfl
  · intro mf mc hp
    rw [parsePdbBundleChainIdFile, hloop] at hp
    injection hp with hpair
    have hmf : (mapFilePairs blocks).reverse = mf := congrArg Prod.fst hpair
    have hmc : (mapChainPairs blocks).reverse = mc := congrArg Prod.snd hpair
    refine ⟨?_, ?_, ?_⟩
    · intro b hb d hd hne
      have hpairmem : (reqOf d, memberOf b, legOf d) ∈ filePairs blocks := by
        unfold filePairs
        refine List.mem_flatMap.mpr ⟨b, hb, ?_⟩
        unfold pairsOfBlock
        exact List.mem_map.mpr ⟨d, List.mem_filter.mpr ⟨hd, by simp [hne]⟩, rfl⟩
      constructor
      · rw [← hmf]
        apply dget_of_nodup
        · rw [List.map_reverse, hkeysF]
          exact List.nodup_reverse.mpr hnd
        · rw [List.mem_reverse]
          unfold mapFilePairs
          exact List.mem_map.mpr ⟨(reqOf d, memberOf b, legOf d), hpairmem, rfl⟩
      · rw [← hmc]
        apply dget_of_nodup
        · rw [List.map_reverse, hkeysC]
          exact List.nodup_reverse.mpr hnd
        · rw [List.mem_reverse]
          unfold mapChainPairs
          exact List.mem_map.mpr ⟨(reqOf d, memberOf b, legOf d), hpairmem, rfl⟩
    · intro k v hk
      rw [← hmf] at hk
      have := dget_some_mem _ k v hk
      rw [List.map_reverse, List.mem_reverse, hkeysF] at this
      exact this
    · intro k v hk
      rw [← hmc] at hk
      have := dget_some_mem _ k v hk
      rw [List.map_reverse, List.mem_reverse, hkeysC] at this
      exact this

/-- C2 witness: the one-block file with header `1abc-pdb-bundle1.pdb:`
and data line `A B`. -/
theorem C2_mapping_round_trip_witness :
    dget (reqOf "A B") [("B", "1abc-pdb-bundle1.pdb")] =
      some (memberOf ⟨"1abc-pdb-bundle1.pdb:", ["A B"]⟩) ∧
    dget (reqOf "A B") [("B", "A")] = some (legOf "A B") :=
  ((C2_mapping_round_trip [⟨"1abc-pdb-bundle1.pdb:", ["A B"]⟩] (by decide) (by decide)).2
    [("B", "1abc-pdb-bundle1.pdb")] [("B", "A")] (by decide)).1
    ⟨"1abc-pdb-bundle1.pdb:", ["A B"]⟩ (List.mem_singleton.mpr rfl)
    "A B" (List.mem_singleton.mpr rfl) (by decide)
